import Mathlib

/-!
Verification development for the wp-migration-tool repository.

The Python sources under scrutiny are shallowly embedded below:
HTML fragments become the inductive type `Node` (element / text / comment),
BeautifulSoup-style operations become recursive tree functions, and the
string-processing helpers (`str.replace`, `urllib.parse.urlparse`,
`xml` escaping) become explicit executable functions on `List Char` /
`String`.  Machine behaviour of external libraries (BeautifulSoup
serialisation, `urllib.parse.urlparse`, `xml.etree.ElementTree` text
escaping, Python's seeded `hash`) is modelled from their documented
semantics; everything else is translated directly from the repository's
own functions.
-/

set_option maxRecDepth 20000
set_option maxHeartbeats 1000000

namespace WpMig

/-! ## Generic string helpers (Python `str` operations) -/

/-- `listStarts pat l` : does `l` start with `pat`? -/
def listStarts : List Char → List Char → Bool
  | [], _ => true
  | _ :: _, [] => false
  | p :: ps, c :: cs => p == c && listStarts ps cs

/-- Python's `pat in s` substring test. -/
def containsSub (pat : List Char) : List Char → Bool
  | [] => listStarts pat []
  | c :: rest => listStarts pat (c :: rest) || containsSub pat rest

/-- Python's `s.replace(pat, repl)` (all occurrences, left to right),
written with explicit fuel so that it stays structurally recursive;
callers pass `fuel = s.length`, which always suffices. -/
def replaceAllFuel (pat repl : List Char) : Nat → List Char → List Char
  | _, [] => []
  | 0, l => l
  | fuel + 1, c :: rest =>
    if listStarts pat (c :: rest) && pat.length != 0 then
      repl ++ replaceAllFuel pat repl fuel ((c :: rest).drop pat.length)
    else
      c :: replaceAllFuel pat repl fuel rest

def strReplace (pat repl s : String) : String :=
  ⟨replaceAllFuel pat.data repl.data s.data.length s.data⟩

def strContains (pat s : String) : Bool :=
  containsSub pat.data s.data

def strStarts (pat s : String) : Bool :=
  listStarts pat.data s.data

/-- Python `str.strip()` whitespace set (the ASCII part actually used). -/
def isSpaceChar (c : Char) : Bool :=
  c == ' ' || c == '\n' || c == '\t' || c == '\r'

def trimList (l : List Char) : List Char :=
  ((l.dropWhile isSpaceChar).reverse.dropWhile isSpaceChar).reverse

def trimStr (s : String) : String := ⟨trimList s.data⟩

def strToLower (s : String) : String := ⟨s.data.map Char.toLower⟩

/-- `'\n'.join(parts)` -/
def joinNl : List String → String
  | [] => ""
  | [s] => s
  | s :: rest => s ++ "\n" ++ joinNl rest

/-! ## The DOM model

`Node` models the BeautifulSoup parse tree of an HTML fragment:
elements with an ordered attribute list, text nodes and comments. -/

inductive Node where
  | elem (tag : String) (attrs : List (String × String)) (children : List Node)
  | text (s : String)
  | comment (s : String)

def childrenOf : Node → List Node
  | .elem _ _ c => c
  | _ => []

def attrsOf : Node → List (String × String)
  | .elem _ a _ => a
  | _ => []

/-- Minimal entity substitution used by BeautifulSoup's default
formatter when serialising text (`&`, `<`, `>`). -/
def escMinChar (c : Char) : List Char :=
  if c == '&' then "&amp;".data
  else if c == '<' then "&lt;".data
  else if c == '>' then "&gt;".data
  else [c]

def escMin (s : String) : String := ⟨(s.data.map escMinChar).flatten⟩

/-- Tags serialised self-closing by BeautifulSoup's html.parser builder. -/
def voidTags : List String := ["img", "br", "hr", "meta", "link", "input"]

mutual

/-- `str(tag)` — BeautifulSoup serialisation of one node. -/
def renderNode : Node → String
  | .elem t a c =>
    if t ∈ voidTags && c.isEmpty then
      "<" ++ t ++ renderAttrs a ++ "/>"
    else
      "<" ++ t ++ renderAttrs a ++ ">" ++ renderList c ++ "</" ++ t ++ ">"
  | .text s => escMin s
  | .comment s => "<!--" ++ s ++ "-->"

def renderAttrs : List (String × String) → String
  | [] => ""
  | (k, v) :: rest => " " ++ k ++ "=" ++ "\"" ++ escMin v ++ "\"" ++ renderAttrs rest

def renderList : List Node → String
  | [] => ""
  | n :: rest => renderNode n ++ renderList rest

end

mutual

/-- `tag.get_text(strip=True)`: each contained string stripped, then
concatenated (comments are not part of the text). -/
def textStripN : Node → String
  | .elem _ _ c => textStripL c
  | .text s => trimStr s
  | .comment _ => ""

def textStripL : List Node → String
  | [] => ""
  | n :: rest => textStripN n ++ textStripL rest

end

/-! ## `smart_extractor.clean_html_content`

```python
for tag in content_area.find_all(['script', 'style', 'nav', 'header', 'footer']):
    tag.decompose()
for element in content_area.find_all(True):
    allowed = {}
    if element.name == 'a' and 'href' in element.attrs: allowed['href'] = ...
    elif element.name == 'img' and 'src' in element.attrs:
        allowed['src'] = ...
        if 'alt' in element.attrs: allowed['alt'] = ...
    element.attrs = allowed
return str(content_area)
```
`find_all` searches descendants only, so the root keeps its attributes. -/

def smartBadTags : List String := ["script", "style", "nav", "header", "footer"]

/-- Does this node's tag belong to a removal list? -/
def tagIn (bad : List String) : Node → Bool
  | .elem t _ _ => t ∈ bad
  | _ => false

mutual

def removeBadN (bad : List String) : Node → Node
  | .elem t a c => .elem t a (removeBadL bad c)
  | n => n

def removeBadL (bad : List String) : List Node → List Node
  | [] => []
  | n :: rest =>
    (if tagIn bad n then [] else [removeBadN bad n]) ++ removeBadL bad rest

end

/-- The attribute allow-list of `smart_extractor.clean_html_content`
(`alt` is kept only when `src` is present). -/
def allowedOfSmart (t : String) (a : List (String × String)) : List (String × String) :=
  if t == "a" then
    match a.lookup "href" with
    | some v => [("href", v)]
    | none => []
  else if t == "img" then
    match a.lookup "src" with
    | some v =>
      match a.lookup "alt" with
      | some w => [("src", v), ("alt", w)]
      | none => [("src", v)]
    | none => []
  else []

mutual

def stripAttrsSmartN : Node → Node
  | .elem t a c => .elem t (allowedOfSmart t a) (stripAttrsSmartL c)
  | n => n

def stripAttrsSmartL : List Node → List Node
  | [] => []
  | n :: rest => stripAttrsSmartN n :: stripAttrsSmartL rest

end

/-- `clean_html_content` as a tree transformation (the Python function
finishes with `str(content_area)`, i.e. `renderNode` of this tree). -/
def cleanHtmlContent : Node → Node
  | .elem t a c => .elem t a (stripAttrsSmartL (removeBadL smartBadTags c))
  | n => n

/-! ## The quality gate and the two-method fallback
(`smart_extractor.is_good_quality` / `extract_blog_post`). -/

/-- The part of the per-URL extraction result dictionary the quality
gate reads (`result.get('title', '')`, `result.get('content', '')`). -/
structure ExtractResult where
  title : String
  content : String

def isGoodQuality : Option ExtractResult → Bool
  | none => false
  | some r =>
    decide (5 < r.title.length) && decide (r.title.length < 200) &&
    decide (300 < r.content.length) && strContains "<" r.content

/-- `extract_blog_post(url)` with the two extraction methods abstracted
as functions from the url to an optional result (each method fetches
and processes the same `url` itself). -/
def extractBlogPostSmart (m1 m2 : String → Option ExtractResult) (url : String) :
    Option ExtractResult :=
  if isGoodQuality (m1 url) then m1 url
  else if isGoodQuality (m2 url) then m2 url
  else none

/-! ## Boolean content invariant used by claim C1 -/

def attrsAllowedB (t : String) (a : List (String × String)) : Bool :=
  a.all fun kv =>
    (t == "a" && kv.1 == "href") || (t == "img" && (kv.1 == "src" || kv.1 == "alt"))

mutual

/-- No script/style element and no attribute outside the allow-list,
anywhere in the node. -/
def cleanNodeB : Node → Bool
  | .elem t a c => !(t == "script" || t == "style") && attrsAllowedB t a && cleanListB c
  | _ => true

def cleanListB : List Node → Bool
  | [] => true
  | n :: rest => cleanNodeB n && cleanListB rest

end

mutual

/-- No script/style element anywhere (tags only). -/
def noBadN : Node → Bool
  | .elem t _ c => decide (¬ t ∈ smartBadTags) && noBadL c
  | _ => true

def noBadL : List Node → Bool
  | [] => true
  | n :: rest => noBadN n && noBadL rest

end

/-! ## Claims C1, C2, C3 -/

/-- A content region as found by `find_content_area` via the selector
`.entry-content`: the matched element necessarily carries that class
attribute, and `clean_html_content` never strips the root's attributes
(`find_all` searches descendants only).  Its text is long enough for the
result to pass the quality gate. -/
def regionC1 : Node :=
  Node.elem "div" [("class", "entry-content")]
    [Node.elem "p" []
      [Node.text "Shopping for a quality used vehicle near Yorktown Heights has never been easier thanks to our extensive inventory of carefully inspected cars, trucks and sport utility vehicles. Every model on our lot undergoes a rigorous multi-point mechanical inspection before it is offered for sale, and our finance team works with dozens of lenders."]]

/-- An accepted result used to instantiate C2's theorem. -/
def acceptedC2 : ExtractResult :=
  ⟨"Shop At Our Used Dealership Near Yorktown Heights",
   renderNode (cleanHtmlContent regionC1)⟩

/-- Method-1 stand-in returning a 3-character title (the scenario in the
claim): its result fails the gate. -/
def method1C3 : String → Option ExtractResult :=
  fun _ => some ⟨"Kia", "<p>A long enough body would not save this: the title has only three characters, so the quality gate rejects the result whatever the content looks like; the gate requires a title longer than five characters before it accepts anything at all from either extraction method of the pipeline under test.</p>"⟩

/-- Method-2 stand-in that also fails (returns nothing). -/
def method2C3 : String → Option ExtractResult := fun _ => none

/-! ## `urllib.parse.urlparse`

Modelled from the documented behaviour of CPython's `urlsplit`:
a scheme is split off when the text before the first `:` starts with a
letter and consists of letters/digits/`+`/`-`/`.`; a netloc is split off
when the remainder starts with `//`, running to the next `/`, `?` or
`#`; a `ValueError` is raised when the netloc has mismatched square
brackets; the fragment is everything after the first remaining `#`, the
query everything after the first remaining `?`.  `params` splitting is
not modelled (no claim touches it). -/

structure UrlParts where
  scheme : String
  netloc : String
  path : String
  query : String
  fragment : String

/-- Split at the first occurrence of `d`; `none` when `d` is absent. -/
def splitFirst (d : Char) : List Char → Option (List Char × List Char)
  | [] => none
  | c :: rest =>
    if c == d then some ([], rest)
    else (splitFirst d rest).map fun p => (c :: p.1, p.2)

def schemeOkChar (c : Char) : Bool :=
  c.isAlphanum || c == '+' || c == '-' || c == '.'

def splitScheme (l : List Char) : List Char × List Char :=
  match splitFirst ':' l with
  | none => ([], l)
  | some (before, after) =>
    match before with
    | [] => ([], l)
    | b :: bs =>
      if b.isAlpha && (b :: bs).all schemeOkChar then
        ((b :: bs).map Char.toLower, after)
      else ([], l)

def netSep (c : Char) : Bool := c == '/' || c == '?' || c == '#'

/-- The part before the first `d` (all of `l` when `d` is absent). -/
def fstSplit (d : Char) (l : List Char) : List Char :=
  match splitFirst d l with
  | some p => p.1
  | none => l

/-- The part after the first `d` (empty when `d` is absent). -/
def sndSplit (d : Char) (l : List Char) : List Char :=
  match splitFirst d l with
  | some p => p.2
  | none => []

def urlparse (s : String) : Option UrlParts :=
  let p1 := splitScheme s.data
  let hasNet := listStarts "//".data p1.2
  let netloc := if hasNet then (p1.2.drop 2).takeWhile (fun c => !netSep c) else []
  let r2 := if hasNet then (p1.2.drop 2).dropWhile (fun c => !netSep c) else p1.2
  if netloc.contains '[' != netloc.contains ']' then none
  else
    some ⟨⟨p1.1⟩, ⟨netloc⟩, ⟨fstSplit '?' (fstSplit '#' r2)⟩,
      ⟨sndSplit '?' (fstSplit '#' r2)⟩, ⟨sndSplit '#' r2⟩⟩

/-- `parsed.path + ('?' + query if query) + ('#' + fragment if fragment)`,
the rewritten form computed for internal links (modern_extractor lines
720 and 772–777). -/
def relForm (u : UrlParts) : String :=
  u.path ++ (if u.query ≠ "" then "?" ++ u.query else "") ++
    (if u.fragment ≠ "" then "#" ++ u.fragment else "")

/-! ## `modern_extractor.extract_hyperlinks_from_content` -/

/-- The classification of one href, relative to the lowercased source
domain (the claim's partition). -/
inductive LinkClass where
  | relative
  | internal (relativeUrl : String)
  | external (domain : String)
deriving DecidableEq

def classifyHref (sd : String) (href : String) : LinkClass :=
  match urlparse href with
  | none => .relative
  | some u =>
    if u.netloc = "" then .relative
    else if strToLower u.netloc = sd then .internal (relForm u)
    else .external (strToLower u.netloc)

def hrefOf (n : Node) : String :=
  match n with
  | .elem _ a _ => ((a.lookup "href").getD "")
  | _ => ""

mutual

/-- `soup.find_all('a', href=True)` in document order. -/
def findAnchorsN : Node → List Node
  | .elem t a c =>
    (if t == "a" && (a.lookup "href").isSome then [Node.elem t a c] else []) ++
      findAnchorsL c
  | _ => []

def findAnchorsL : List Node → List Node
  | [] => []
  | n :: rest => findAnchorsN n ++ findAnchorsL rest

end

structure RelLink where
  url : String
  text : String
  fullTag : String
deriving DecidableEq

structure IntLink where
  url : String
  text : String
  fullTag : String
  relativeUrl : String
  originalFullUrl : String
deriving DecidableEq

structure ExtLink where
  url : String
  text : String
  fullTag : String
  domain : String
deriving DecidableEq

structure LinkBuckets where
  internal_links : List IntLink
  external_links : List ExtLink
  relative_links : List RelLink
deriving DecidableEq

/-- The per-anchor body of the `for link in soup.find_all('a', href=True)`
loop (modern_extractor lines 694–742), written exactly as the code's
`if not parsed.netloc / elif netloc.lower() == source_domain / else`
chain; a parse failure lands in the `except` branch appending to
`relative_links`. -/
def processAnchor (sd : String) (b : LinkBuckets) (n : Node) : LinkBuckets :=
  let href := trimStr (hrefOf n)
  let linkText := textStripN n
  if href = "" || strStarts "#" href then b
  else
    match urlparse href with
    | none =>
      { b with relative_links := b.relative_links ++ [⟨href, linkText, renderNode n⟩] }
    | some u =>
      if u.netloc = "" then
        { b with relative_links := b.relative_links ++ [⟨href, linkText, renderNode n⟩] }
      else if strToLower u.netloc = sd then
        { b with internal_links :=
            b.internal_links ++ [⟨href, linkText, renderNode n, relForm u, href⟩] }
      else
        { b with external_links :=
            b.external_links ++ [⟨href, linkText, renderNode n, strToLower u.netloc⟩] }

/-- `extract_hyperlinks_from_content(content, source_url)`; `none` models
the exception that would propagate out of
`urlparse(source_url).netloc.lower()` for an unparseable source URL. -/
def extractHyperlinksFromContent (content : List Node) (sourceUrl : String) :
    Option LinkBuckets :=
  (urlparse sourceUrl).map fun su =>
    (findAnchorsL content).foldl (processAnchor (strToLower su.netloc)) ⟨[], [], []⟩

/-! ## `modern_extractor.convert_internal_links_to_relative` -/

/-- Python's `link['href'] = value`: update the value in place. -/
def setAttr (a : List (String × String)) (k v : String) : List (String × String) :=
  a.map fun kv => if kv.1 = k then (k, v) else kv

mutual

def convN (sd : String) : Node → Node
  | .elem t a c =>
    if t == "a" && (a.lookup "href").isSome then
      match urlparse ((a.lookup "href").getD "") with
      | none => .elem t a (convL sd c)
      | some u =>
        if strToLower u.netloc = sd then
          .elem t (setAttr a "href" (relForm u)) (convL sd c)
        else .elem t a (convL sd c)
    else .elem t a (convL sd c)
  | n => n

def convL (sd : String) : List Node → List Node
  | [] => []
  | n :: rest => convN sd n :: convL sd rest

end

/-- `convert_internal_links_to_relative(content, source_url)` as a tree
transformation (the Python returns `str(soup)` of this tree); `none`
models the exception out of `urlparse(source_url)` itself. -/
def convertInternalLinksToRelative (content : List Node) (sourceUrl : String) :
    Option (List Node) :=
  (urlparse sourceUrl).map fun su => convL (strToLower su.netloc) content

/-- The href rewriting applied to a single anchor's href value by
`convert_internal_links_to_relative`. -/
def rewriteHref (sd h : String) : String :=
  match urlparse h with
  | none => h
  | some u => if strToLower u.netloc = sd then relForm u else h

mutual

/-- Blank out every anchor's href value (used to state the frame
property: everything except anchor href values). -/
def eraseHrefsN : Node → Node
  | .elem t a c =>
    if t == "a" && (a.lookup "href").isSome then
      .elem t (setAttr a "href" "") (eraseHrefsL c)
    else .elem t a (eraseHrefsL c)
  | n => n

def eraseHrefsL : List Node → List Node
  | [] => []
  | n :: rest => eraseHrefsN n :: eraseHrefsL rest

end

/-- An anchor with a case-different internal host, used to instantiate C6. -/
def anchorC6 : Node :=
  Node.elem "a" [("href", "HTTPS://EXAMPLE.COM/specials/ford?sort=price#top")]
    [Node.text "our specials"]

/-- The anchor of C7's counterexample: an internal absolute link whose
path begins with `//`. -/
def anchorC7 : Node :=
  Node.elem "a" [("href", "https://example.com//foo/bar")] [Node.text "promo"]

/-! ## `fixed_extractor` — the WXR serializer without double encoding -/

/-- `escape_xml_text`: the five sequential `str.replace` calls, `&` first. -/
def escapeXmlText (s : String) : String :=
  strReplace "'" "&#39;"
    (strReplace "\"" "&quot;"
      (strReplace ">" "&gt;"
        (strReplace "<" "&lt;"
          (strReplace "&" "&amp;" s))))

/-- The per-character effect of `escape_xml_text`. -/
def escXmlChar (x : Char) : List Char :=
  if x == '&' then "&amp;".data
  else if x == '<' then "&lt;".data
  else if x == '>' then "&gt;".data
  else if x == '"' then "&quot;".data
  else if x == '\'' then "&#39;".data
  else [x]

/-- A decoder for the five XML entities; `unescXml ∘ escape = id`
witnesses that the serializer escapes exactly once (a double-escaped
string would not decode back in one pass). -/
def unescXml : List Char → List Char
  | '&' :: 'a' :: 'm' :: 'p' :: ';' :: rest => '&' :: unescXml rest
  | '&' :: 'l' :: 't' :: ';' :: rest => '<' :: unescXml rest
  | '&' :: 'g' :: 't' :: ';' :: rest => '>' :: unescXml rest
  | '&' :: 'q' :: 'u' :: 'o' :: 't' :: ';' :: rest => '"' :: unescXml rest
  | '&' :: '#' :: '3' :: '9' :: ';' :: rest => '\'' :: unescXml rest
  | c :: rest => c :: unescXml rest
  | [] => []

/-- Valid XML 1.0 characters as tested in `clean_content_for_cdata`
and `clean_xml_content`. -/
def validXmlChar (c : Char) : Bool :=
  c.toNat == 0x09 || c.toNat == 0x0A || c.toNat == 0x0D ||
  (decide (0x20 ≤ c.toNat) && decide (c.toNat ≤ 0xD7FF)) ||
  (decide (0xE000 ≤ c.toNat) && decide (c.toNat ≤ 0xFFFD)) ||
  (decide (0x10000 ≤ c.toNat) && decide (c.toNat ≤ 0x10FFFF))

/-- `content.replace(']]>', ']] >')` (insert a space so the CDATA
section cannot terminate early). -/
def guardCdata : List Char → List Char
  | ']' :: ']' :: '>' :: rest => ']' :: ']' :: ' ' :: '>' :: guardCdata rest
  | c :: rest => c :: guardCdata rest
  | [] => []

/-- Scanner for an occurrence of the three-character sequence `]]>`. -/
def hasCdataEnd : List Char → Bool
  | [] => false
  | c :: rest => decide ((c :: rest).take 3 = [']', ']', '>']) || hasCdataEnd rest

/-- `clean_content_for_cdata`: strip invalid XML characters, then guard
the CDATA terminator. -/
def cleanContentForCdata (s : String) : String :=
  ⟨guardCdata (s.data.filter validXmlChar)⟩

/-- A datetime value, modelled by its two `strftime` renderings used by
the serializer (display format and sortable format). -/
structure DTM where
  rss : String
  wp : String

/-- One post dictionary as consumed by `generate_wordpress_xml_fixed`. -/
structure PostRec where
  url : String
  title : String
  slug : String
  content : String
  author : String
  date : Option DTM
  categories : List String
  tags : List String

/-- Category/tag nicename: `lower`, spaces to hyphens, `&`→`and`, then
drop anything outside `[a-z0-9-]`. -/
def nicename (s : String) : String :=
  ⟨(strReplace "&" "and" (strReplace " " "-" (strToLower s))).data.filter
    (fun c => (decide ('a' ≤ c) && decide (c ≤ 'z')) || c.isDigit || c == '-')⟩

/-- `str(hash(post['url']) % 1000000)`'s numeric value, with the hash
function abstracted. -/
def postIdOf (h : String → Int) (url : String) : Int := h url % 1000000

/-- Modelled from Python semantics: `hash(str)` in CPython is salted per
process by `PYTHONHASHSEED`, so it is a seed-indexed family of
functions, not a single function of the string (modelled here as a
seeded polynomial hash with 64-bit wraparound). -/
def pythonHashModel (seed : Nat) (s : String) : Int :=
  Int.ofNat (s.data.foldl (fun a c => (a * 1000003 + c.toNat) % (2 ^ 64)) (seed % (2 ^ 64)))

/-- The `xml_parts` lines appended for one post by
`generate_wordpress_xml_fixed` (lines 35–88). -/
def generateItemPartsFixed (h : String → Int) (p : PostRec) : List String :=
  ["<item>",
   "<title>" ++ escapeXmlText p.title ++ "</title>",
   "<link>" ++ escapeXmlText p.url ++ "</link>"] ++
  (match p.date with
   | some d => ["<pubDate>" ++ d.rss ++ "</pubDate>"]
   | none => []) ++
  ["<dc:creator>" ++ escapeXmlText p.author ++ "</dc:creator>",
   "<guid isPermaLink=\"false\">" ++ escapeXmlText p.url ++ "</guid>",
   "<description />",
   "<wp:post_id>" ++ toString (postIdOf h p.url) ++ "</wp:post_id>"] ++
  (match p.date with
   | some d => ["<wp:post_date>" ++ d.wp ++ "</wp:post_date>",
                "<wp:post_date_gmt>" ++ d.wp ++ "</wp:post_date_gmt>"]
   | none => []) ++
  ["<wp:post_name>" ++ escapeXmlText p.slug ++ "</wp:post_name>",
   "<wp:status>publish</wp:status>",
   "<wp:post_type>post</wp:post_type>",
   "<wp:post_password />",
   "<content:encoded><![CDATA[" ++ cleanContentForCdata p.content ++ "]]></content:encoded>"] ++
  (p.categories.map fun cat =>
    "<category domain=\"category\" nicename=\"" ++ nicename cat ++ "\">" ++
      escapeXmlText cat ++ "</category>") ++
  (p.tags.map fun tg =>
    "<category domain=\"post_tag\" nicename=\"" ++ nicename tg ++ "\">" ++
      escapeXmlText tg ++ "</category>") ++
  ["<excerpt:encoded />", "</item>"]

/-- The fixed channel header (`now` abstracts `datetime.now().strftime(...)`). -/
def channelHeader (now : String) : List String :=
  ["<?xml version=\"1.0\" encoding=\"UTF-8\" ?>",
   "<rss version=\"2.0\"",
   " xmlns:excerpt=\"http://wordpress.org/export/1.2/excerpt/\"",
   " xmlns:content=\"http://purl.org/rss/1.0/modules/content/\"",
   " xmlns:wfw=\"http://wellformedweb.org/CommentAPI/\"",
   " xmlns:dc=\"http://purl.org/dc/elements/1.1/\"",
   " xmlns:wp=\"http://wordpress.org/export/1.2/\">",
   "<channel>",
   "<title>Migrated Blog</title>",
   "<link>https://newsite.com</link>",
   "<description>Migrated content</description>",
   "<pubDate>" ++ now ++ "</pubDate>",
   "<language>en-US</language>",
   "<wp:wxr_version>1.2</wp:wxr_version>",
   "<wp:base_site_url>https://newsite.com</wp:base_site_url>",
   "<wp:base_blog_url>https://newsite.com</wp:base_blog_url>"]

/-- `generate_wordpress_xml_fixed(posts)`. -/
def generateWordpressXmlFixed (h : String → Int) (now : String)
    (posts : List PostRec) : String :=
  if posts.isEmpty then ""
  else joinNl (channelHeader now ++ posts.flatMap (generateItemPartsFixed h) ++
    ["</channel>", "</rss>"])

/-! ## `modern_extractor.generate_wordpress_xml`'s `content:encoded`

`ElementTree` escapes element text (`_escape_cdata` replaces `&`, `<`,
`>`), and `add_cdata_to_content` then wraps the already-escaped text in
a CDATA marker. -/

/-- `xml.etree.ElementTree`'s text escaping (`_escape_cdata`). -/
def etEscapeCdata (s : String) : String :=
  strReplace ">" "&gt;" (strReplace "<" "&lt;" (strReplace "&" "&amp;" s))

mutual

/-- `fix_empty_hrefs` (the two regexes `href=""` and `href="\s+"` → `href="/"`),
applied to the attribute values of the parsed content. -/
def fixEmptyHrefsN : Node → Node
  | .elem t a c =>
    .elem t (a.map fun kv => if kv.1 = "href" ∧ trimStr kv.2 = "" then ("href", "/") else kv)
      (fixEmptyHrefsL c)
  | n => n

def fixEmptyHrefsL : List Node → List Node
  | [] => []
  | n :: rest => fixEmptyHrefsN n :: fixEmptyHrefsL rest

end

mutual

def sizeN : Node → Nat
  | .elem _ _ c => 1 + sizeL c
  | _ => 1

def sizeL : List Node → Nat
  | [] => 0
  | n :: rest => sizeN n + sizeL rest

end

mutual

/-- First collection loop of `remove_duplicate_sections`: walk the
`ul`/`ol` elements in document order (indexed by preorder position),
recording serialisations in the shared seen set and flagging repeats. -/
def collectUlN : Node → Nat → List String → (Nat × List String × List Nat)
  | .elem t a c, i, seen =>
    if t = "ul" ∨ t = "ol" then
      if renderNode (.elem t a c) ∈ seen then
        let out := collectUlL c (i + 1) seen
        (out.1, out.2.1, i :: out.2.2)
      else
        let out := collectUlL c (i + 1) (renderNode (.elem t a c) :: seen)
        (out.1, out.2.1, out.2.2)
    else collectUlL c (i + 1) seen
  | _, i, seen => (i + 1, seen, [])

def collectUlL : List Node → Nat → List String → (Nat × List String × List Nat)
  | [], i, seen => (i, seen, [])
  | n :: rest, i, seen =>
    let o1 := collectUlN n i seen
    let o2 := collectUlL rest o1.1 o1.2.1
    (o2.1, o2.2.1, o1.2.2 ++ o2.2.2)

end

mutual

/-- Second collection loop of `remove_duplicate_sections`: substantial
paragraphs (stripped text longer than 50 characters) are checked against
and added to the same shared seen set. -/
def collectPN : Node → Nat → List String → (Nat × List String × List Nat)
  | .elem t _a c, i, seen =>
    if t = "p" then
      if 50 < (textStripL c).length then
        if textStripL c ∈ seen then
          let out := collectPL c (i + 1) seen
          (out.1, out.2.1, i :: out.2.2)
        else
          let out := collectPL c (i + 1) (textStripL c :: seen)
          (out.1, out.2.1, out.2.2)
      else collectPL c (i + 1) seen
    else collectPL c (i + 1) seen
  | _, i, seen => (i + 1, seen, [])

def collectPL : List Node → Nat → List String → (Nat × List String × List Nat)
  | [], i, seen => (i, seen, [])
  | n :: rest, i, seen =>
    let o1 := collectPN n i seen
    let o2 := collectPL rest o1.1 o1.2.1
    (o2.1, o2.2.1, o1.2.2 ++ o2.2.2)

end

mutual

/-- Removal phase of `remove_duplicate_sections`: decompose the flagged
elements (identified by preorder index). -/
def rebuildN : Node → Nat → List Nat → (Nat × List Node)
  | .elem t a c, i, flags =>
    if i ∈ flags then (i + sizeN (.elem t a c), [])
    else
      let o := rebuildL c (i + 1) flags
      (o.1, [.elem t a o.2])
  | n, i, flags => if i ∈ flags then (i + 1, []) else (i + 1, [n])

def rebuildL : List Node → Nat → List Nat → (Nat × List Node)
  | [], i, _ => (i, [])
  | n :: rest, i, flags =>
    let o1 := rebuildN n i flags
    let o2 := rebuildL rest o1.1 flags
    (o2.1, o1.2 ++ o2.2)

end

/-- `remove_duplicate_sections(content)` on the parsed content: collect
duplicate `ul`/`ol` serialisations, then duplicate substantial `p`
texts (shared seen set, in that order), then remove the flagged
elements. -/
def dedupSections (frag : List Node) : List Node :=
  let ulOut := collectUlL frag 0 []
  let pOut := collectPL frag 0 ulOut.2.1
  (rebuildL frag 0 (ulOut.2.2 ++ pOut.2.2)).2

/-- `clean_xml_content(content)` of `modern_extractor` on the parsed
content: fix empty hrefs, remove duplicate sections, strip invalid XML
characters from the serialisation. -/
def cleanXmlContentModern (frag : List Node) : String :=
  ⟨(renderList (dedupSections (fixEmptyHrefsL frag))).data.filter validXmlChar⟩

/-- The CDATA payload emitted for `content:encoded` by
`generate_wordpress_xml`: ElementTree escapes the element text, and
`add_cdata_to_content` wraps that escaped text. -/
def cdataPayloadModern (frag : List Node) : String :=
  etEscapeCdata (cleanXmlContentModern frag)

/-- The whole `content:encoded` element in `generate_wordpress_xml`'s
output after `add_cdata_to_content`. -/
def contentEncodedModern (frag : List Node) : String :=
  "<content:encoded><![CDATA[" ++ cdataPayloadModern frag ++ "]]></content:encoded>"

/-! ### Lemmas about single-character replacement and XML escaping -/

/-- The per-character substitution performed by a single-character
`str.replace`. -/
def sub1 (c : Char) (repl : List Char) (x : Char) : List Char :=
  if x == c then repl else [x]

/-- A post with XML-special characters in the escaped fields and a clean
HTML body, used to instantiate C4. -/
def postC4 : PostRec :=
  { url := "http://test.com/post?a=1&b=2"
    title := "Deals on \"F-150\" & <Mustang>"
    slug := "deals-f150"
    content := "<p>This is a <strong>test</strong> with <a href=\"http://example.com\">links</a>.</p>"
    author := "Test Author"
    date := some ⟨"Mon, 01 Jan 2024 00:00:00 +0000", "2024-01-01 00:00:00"⟩
    categories := ["News & Events"]
    tags := ["test", "html"] }

/-! ## `modern_extractor.extract_blog_post`'s content normalisation
(lines 109–245): the cleaning passes over `content_copy` (a re-parse of
the content area, so `find_all` reaches the root too), the block emit
loop building `clean_html`, the image harvest from the original content
area, and the final strip-and-wrap. -/

/-- The attribute allow-list of the modern extractor (unlike the smart
one, `alt` is kept even without `src`). -/
def allowedOfModern (t : String) (a : List (String × String)) : List (String × String) :=
  if t == "a" then
    match a.lookup "href" with
    | some v => [("href", v)]
    | none => []
  else if t == "img" then
    (match a.lookup "src" with
     | some v => [("src", v)]
     | none => []) ++
    (match a.lookup "alt" with
     | some w => [("alt", w)]
     | none => [])
  else []

mutual

def stripAttrsModernN : Node → Node
  | .elem t a c => .elem t (allowedOfModern t a) (stripAttrsModernL c)
  | n => n

def stripAttrsModernL : List Node → List Node
  | [] => []
  | n :: rest => stripAttrsModernN n :: stripAttrsModernL rest

end

mutual

/-- The span/font/b/i/u/center pass: `b`→`strong`, `i`→`em`, `u`, `span`,
`font`, `center` unwrapped. -/
def unwrapStyleN : Node → List Node
  | .elem t a c =>
    if t == "b" then [.elem "strong" a (unwrapStyleL c)]
    else if t == "i" then [.elem "em" a (unwrapStyleL c)]
    else if t == "u" || t == "span" || t == "font" || t == "center" then unwrapStyleL c
    else [.elem t a (unwrapStyleL c)]
  | n => [n]

def unwrapStyleL : List Node → List Node
  | [] => []
  | n :: rest => unwrapStyleN n ++ unwrapStyleL rest

end

/-- The block check of the div/section→p pass
(`tag.find_all(['p','h2','h3','h4','ul','ol'])`). -/
def blockCheckTags : List String := ["p", "h2", "h3", "h4", "ul", "ol"]

mutual

def hasBlockDescN : Node → Bool
  | .elem t _ c => decide (t ∈ blockCheckTags) || hasBlockDescL c
  | _ => false

def hasBlockDescL : List Node → Bool
  | [] => false
  | n :: rest => hasBlockDescN n || hasBlockDescL rest

end

mutual

/-- `div`/`section` elements without nested block elements become `p`. -/
def divToPN : Node → Node
  | .elem t a c =>
    if (t == "div" || t == "section") && !hasBlockDescL c then
      .elem "p" a (divToPL c)
    else .elem t a (divToPL c)
  | n => n

def divToPL : List Node → List Node
  | [] => []
  | n :: rest => divToPN n :: divToPL rest

end

mutual

/-- `elem.find_all(['h2','h3','h4'])` is nonempty. -/
def hasHeadingN : Node → Bool
  | .elem t _ c => decide (t ∈ (["h2", "h3", "h4"] : List String)) || hasHeadingL c
  | _ => false

def hasHeadingL : List Node → Bool
  | [] => false
  | n :: rest => hasHeadingN n || hasHeadingL rest

end

mutual

/-- `for nested_p in elem.find_all('p'): nested_p.unwrap()` — splice all
descendant `p` elements into their parents (the unwrapped objects are
emptied, so the later loop iterations skip them). -/
def unwrapPN : Node → List Node
  | .elem t a c =>
    if t == "p" then unwrapPL c
    else [.elem t a (unwrapPL c)]
  | n => [n]

def unwrapPL : List Node → List Node
  | [] => []
  | n :: rest => unwrapPN n ++ unwrapPL rest

end

/-- The tags matched by the emit loop
(`content_copy.find_all(['p','h2','h3','h4','ul','ol','blockquote','div'])`). -/
def emitTags : List String := ["p", "h2", "h3", "h4", "ul", "ol", "blockquote", "div"]

/-- The mixed-content branch: each direct child of a div that contains
headings is emitted on its own — headings verbatim, `p`/`ul`/`ol`
verbatim, any other element with text as a paragraph of its stripped
text, and non-blank text nodes as paragraphs of their stripped selves.
(Comments do not occur in the inputs considered; they contribute
nothing.) -/
def emitMixed : List Node → String
  | [] => ""
  | .elem t a c :: rest =>
    (if t ∈ (["h2", "h3", "h4"] : List String) then renderNode (.elem t a c) ++ "\n\n"
     else if textStripL c ≠ "" then
       (if t ∈ (["p", "ul", "ol"] : List String) then renderNode (.elem t a c) ++ "\n\n"
        else "<p>" ++ textStripL c ++ "</p>\n\n")
     else "") ++ emitMixed rest
  | .text s :: rest =>
    (if trimStr s ≠ "" then "<p>" ++ trimStr s ++ "</p>\n\n" else "") ++ emitMixed rest
  | .comment _ :: rest => emitMixed rest

/-- The emit loop over the eagerly collected block elements in document
order: an element processed in the plain branch has its nested `p`s
unwrapped (emptying them for their own later iterations), is renamed to
`p` if it is a div, and is serialised; its (mutated) descendants are
then still visited.  A div containing headings takes the mixed branch,
which serialises its direct children without mutating, so its block
descendants are visited (and duplicated) afterwards.  The recursion
descends into `unwrapPL c`, which is not a structural subterm, so the
function carries fuel: one unit per visited node suffices, and callers
pass `2 * size + 2`. -/
def emitF : Nat → List Node → String
  | 0, _ => ""
  | _ + 1, [] => ""
  | fuel + 1, .elem t a c :: rest =>
    (if t ∈ emitTags then
      if textStripL c ≠ "" then
        if t == "div" && hasHeadingL c then emitMixed c ++ emitF fuel c
        else
          renderNode (.elem (if t == "div" then "p" else t) a (unwrapPL c)) ++ "\n\n" ++
            emitF fuel (unwrapPL c)
      else emitF fuel c
    else emitF fuel c) ++ emitF fuel rest
  | fuel + 1, .text _ :: rest => emitF fuel rest
  | fuel + 1, .comment _ :: rest => emitF fuel rest

mutual

/-- `content_area.find_all('img', src=True)`: `(src, alt)` pairs in
document order. -/
def findImgsN : Node → List (String × String)
  | .elem t a c =>
    (if t == "img" && (a.lookup "src").isSome then
      [((a.lookup "src").getD "", (a.lookup "alt").getD "")]
     else []) ++ findImgsL c
  | _ => []

def findImgsL : List Node → List (String × String)
  | [] => []
  | n :: rest => findImgsN n ++ findImgsL rest

end

/-- `any(tracker in src.lower() for tracker in [...])`. -/
def isTracker (src : String) : Bool :=
  (["analytics", "pixel", "tracking", "doubleclick", "google"] : List String).any
    fun t => containsSub t.data (strToLower src).data

/-- The image harvest appended after the emit loop (lines 185–193):
images come from the original content area. -/
def imagesHtml (contentArea : Node) : String :=
  let imgs := findImgsL (childrenOf contentArea)
  if imgs.isEmpty then ""
  else
    "\n<!-- Images from original post -->\n" ++
      String.join (imgs.map fun pr =>
        if pr.1 ≠ "" ∧ isTracker pr.1 = false then
          "<img src=\"" ++ pr.1 ++ "\" alt=\"" ++ pr.2 ++ "\" />\n"
        else "")

/-- The content normalisation of `modern_extractor.extract_blog_post`
as a function of the chosen content area (lines 109–245): re-parse
(identity at tree level), remove script/style/noscript, clear
attributes everywhere including the root, unwrap styling tags, convert
blockless divs/sections to paragraphs, run the emit loop, append the
harvested images, strip, and wrap in `<div class='post-content'>`. -/
def modernCleanContent (contentArea : Node) : String :=
  let cleaned := divToPL (unwrapStyleL (stripAttrsModernL
    (removeBadL ["script", "style", "noscript"] [contentArea])))
  let body := trimStr (emitF (2 * sizeL cleaned + 2) cleaned ++ imagesHtml contentArea)
  "<div class='post-content'>\n" ++ body ++ "\n</div>"

/-! ## `modern_app` find/replace (preview and selective apply) -/

/-- `preview_replace` (literal mode, lines 644–671): for each anchor
with an href containing the search pattern, record
`(str(link), original_href, original_href.replace(search, replace))`. -/
def previewFindMatches (sp rw : String) (content : List Node) :
    List (String × String × String) :=
  (findAnchorsL content).foldl
    (fun acc n =>
      if strContains sp (hrefOf n) then
        acc ++ [(renderNode n, hrefOf n, strReplace sp rw (hrefOf n))]
      else acc) []

/-- `apply_replace` (lines 810–825): for each selected element,
`modified_content = modified_content.replace(old_href, new_href)` on
the whole content string. -/
def applySelected (selected : List (String × String)) (content : String) : String :=
  selected.foldl (fun s pr => strReplace pr.1 pr.2 s) content

/-- A plainly formatted content region (one paragraph). -/
def regionC8 : Node :=
  Node.elem "div" [("class", "entry-content")]
    [Node.elem "p" [] [Node.text "Hello world"]]

/-- The BeautifulSoup parse of `modernCleanContent regionC8`'s output
`<div class='post-content'>\n<p>Hello world</p>\n</div>`. -/
def reparsedC8 : Node :=
  Node.elem "div" [("class", "post-content")]
    [Node.text "\n", Node.elem "p" [] [Node.text "Hello world"], Node.text "\n"]

/-- The two same-href anchors of C9's counterexample. -/
def anchorsC9 : List Node :=
  [Node.elem "a" [("href", "/old-path/item")] [Node.text "x"],
   Node.elem "a" [("href", "/old-path/item")] [Node.text "y"]]

/-! ## `modern_extractor.extract_blog_post` — requests fallback

The requests fallback (lines 203-222) selects a content region, then for
each matched `p/h2/h3/h4/ul/ol` element with non-empty stripped text
clears the attributes of every tag in `elem.find_all(True)` — the
element's strict descendants — keeping only `href` on anchors that have
one (an anchor without `href`, and the matched element itself, keep
their attributes), and appends `str(elem)` plus a blank line; the
accumulated string is stripped and wrapped in the post-content div
(lines 242-245). -/

mutual

def fbClearN : Node → Node
  | .elem t a c =>
    if t == "a" then
      match a.lookup "href" with
      | some v => .elem t [("href", v)] (fbClearL c)
      | none => .elem t a (fbClearL c)
    else .elem t [] (fbClearL c)
  | n => n

def fbClearL : List Node → List Node
  | [] => []
  | n :: rest => fbClearN n :: fbClearL rest

end

/-- One matched element: attributes cleared on its descendants only. -/
def fallbackProcessElem : Node → Node
  | .elem t a c => .elem t a (fbClearL c)
  | n => n

/-- The `clean_html` accumulated over the matched elements. -/
def fallbackCleanHtml (elems : List Node) : String :=
  elems.foldl
    (fun acc e =>
      if textStripN e == "" then acc
      else acc ++ renderNode (fallbackProcessElem e) ++ "\n\n") ""

/-- `clean_html.strip()` wrapped in the post-content div. -/
def fallbackContent (elems : List Node) : String :=
  "<div class='post-content'>\n" ++ trimStr (fallbackCleanHtml elems) ++ "\n</div>"

/-- A paragraph as matched by the fallback's `find_all`: it carries a
class attribute of its own and contains an anchor with an extra
attribute. -/
def fbElemC1 : Node :=
  Node.elem "p" [("class", "intro")]
    [Node.elem "a" [("href", "/x"), ("target", "_blank")] [Node.text "hi"]]

/-! ## Theorems -/

/-! Helper lemmas for C1/C8. -/

theorem allowedOfSmart_ok (t : String) (a : List (String × String)) :
    attrsAllowedB t (allowedOfSmart t a) = true := by
  by_cases h1 : t == "a"
  · unfold allowedOfSmart
    rw [if_pos h1]
    cases a.lookup "href" <;> simp [attrsAllowedB, h1]
  · by_cases h2 : t == "img"
    · unfold allowedOfSmart
      rw [if_neg h1, if_pos h2]
      cases a.lookup "src" with
      | none => simp [attrsAllowedB]
      | some v => cases a.lookup "alt" <;> simp [attrsAllowedB, h2]
    · unfold allowedOfSmart
      rw [if_neg h1, if_neg h2]
      simp [attrsAllowedB]

mutual

theorem removeBad_noBadN : (n : Node) → tagIn smartBadTags n = false →
    noBadN (removeBadN smartBadTags n) = true
  | .elem t a c, h => by
    rw [removeBadN, noBadN]
    simp only [tagIn, decide_eq_false_iff_not] at h
    simp [h, removeBad_noBadL c]
  | .text s, _ => by simp [removeBadN, noBadN]
  | .comment s, _ => by simp [removeBadN, noBadN]

theorem removeBad_noBadL : (l : List Node) → noBadL (removeBadL smartBadTags l) = true
  | [] => by simp [removeBadL, noBadL]
  | n :: rest => by
    rw [removeBadL]
    by_cases h : tagIn smartBadTags n = true
    · simp [h, removeBad_noBadL rest]
    · rw [Bool.not_eq_true] at h
      simp [h, noBadL, removeBad_noBadN n h, removeBad_noBadL rest]

end

mutual

theorem stripAttrs_cleanN : (n : Node) → noBadN n = true →
    cleanNodeB (stripAttrsSmartN n) = true
  | .elem t a c, h => by
    rw [noBadN] at h
    simp only [Bool.and_eq_true, decide_eq_true_eq, smartBadTags, List.mem_cons,
      List.not_mem_nil, or_false] at h
    obtain ⟨htm, hc⟩ := h
    rw [stripAttrsSmartN, cleanNodeB]
    simp only [Bool.and_eq_true, allowedOfSmart_ok, and_true]
    refine ⟨?_, stripAttrs_cleanL c hc⟩
    simp only [Bool.not_eq_eq_eq_not, Bool.not_true, Bool.or_eq_false_iff,
      beq_eq_false_iff_ne, ne_eq]
    exact ⟨fun he => htm (Or.inl he), fun he => htm (Or.inr (Or.inl he))⟩
  | .text s, _ => rfl
  | .comment s, _ => rfl

theorem stripAttrs_cleanL : (l : List Node) → noBadL l = true →
    cleanListB (stripAttrsSmartL l) = true
  | [], _ => rfl
  | n :: rest, h => by
    rw [noBadL, Bool.and_eq_true] at h
    rw [stripAttrsSmartL, cleanListB]
    simp [stripAttrs_cleanN n h.1, stripAttrs_cleanL rest h.2]

end

/-- C1 counterexample: this fully realistic accepted post violates the
claimed invariant — the cleaned content still carries the
`class="entry-content"` attribute on its root element, an attribute
outside `{href, src, alt}` — while passing the quality gate. -/
theorem cleanHtmlContent_root_attrs_escape_allowlist :
    isGoodQuality (some ⟨"Shop At Our Used Dealership Near Yorktown Heights",
        renderNode (cleanHtmlContent regionC1)⟩) = true ∧
    cleanNodeB (cleanHtmlContent regionC1) = false := by
  constructor
  · decide
  · decide

/-- C1 (amended): the below-root invariant is a guarantee of
`smart_extractor.clean_html_content` only — for every content region,
every node strictly below the root of its output contains no
script/style element and no attribute outside `href` (anchors) /
`src`,`alt` (images), while the root keeps its original attributes —
and it does NOT extend to every extraction method: the modern
extractor's requests fallback clears attributes only on each emitted
element's descendants, so the element's own attributes (here
`class="intro"`) survive strictly below the post-content wrapper
root. -/
theorem cleanHtmlContent_descendants_clean :
    (∀ (t : String) (a : List (String × String)) (c : List Node),
      cleanListB (childrenOf (cleanHtmlContent (Node.elem t a c))) = true) ∧
    fallbackContent [fbElemC1] =
      "<div class='post-content'>\n<p class=\"intro\"><a href=\"/x\">hi</a></p>\n</div>" ∧
    cleanNodeB (fallbackProcessElem fbElemC1) = false := by
  refine ⟨fun t a c => ?_, by decide, by decide⟩
  show cleanListB (stripAttrsSmartL (removeBadL smartBadTags c)) = true
  exact stripAttrs_cleanL _ (removeBad_noBadL c)

/-- C2: `is_good_quality` accepts exactly when the title length is
strictly between 5 and 200, the content length is strictly above the
300-character minimum, and the content contains a markup character;
consequently every accepted result's title length lies strictly between
5 and 200, and `None` is always rejected. -/
theorem isGoodQuality_acceptance (r : ExtractResult) :
    (isGoodQuality (some r) = true ↔
      (5 < r.title.length ∧ r.title.length < 200 ∧
       300 < r.content.length ∧ strContains "<" r.content = true)) ∧
    (∀ o : Option ExtractResult, isGoodQuality o = true →
      ∃ q, o = some q ∧ 5 < q.title.length ∧ q.title.length < 200) ∧
    isGoodQuality none = false := by
  refine ⟨?_, ?_, rfl⟩
  · simp [isGoodQuality, and_assoc]
  · intro o ho
    match o, ho with
    | some q, ho =>
      refine ⟨q, rfl, ?_, ?_⟩
      · simp only [isGoodQuality, Bool.and_eq_true, decide_eq_true_eq] at ho
        exact ho.1.1.1
      · simp only [isGoodQuality, Bool.and_eq_true, decide_eq_true_eq] at ho
        exact ho.1.1.2

/-- Witness for C2 at a concrete accepted result. -/
theorem isGoodQuality_acceptance_witness :
    (5 < acceptedC2.title.length ∧ acceptedC2.title.length < 200 ∧
     300 < acceptedC2.content.length ∧ strContains "<" acceptedC2.content = true) ∧
    ∃ q, (some acceptedC2 = some q ∧ 5 < q.title.length ∧ q.title.length < 200) :=
  ⟨(isGoodQuality_acceptance acceptedC2).1.mp (by decide),
   (isGoodQuality_acceptance acceptedC2).2.1 (some acceptedC2) (by decide)⟩

/-- C3: if method 1's result fails the quality gate, the pipeline's
outcome is exactly method 2's gated outcome on the same input url; if
both fail the pipeline returns nothing; and any result it does return
passed the quality gate (no partial record is ever returned). -/
theorem extractBlogPostSmart_fallback (m1 m2 : String → Option ExtractResult)
    (url : String) :
    (isGoodQuality (m1 url) = false →
      extractBlogPostSmart m1 m2 url =
        if isGoodQuality (m2 url) then m2 url else none) ∧
    (isGoodQuality (m1 url) = false → isGoodQuality (m2 url) = false →
      extractBlogPostSmart m1 m2 url = none) ∧
    (∀ r, extractBlogPostSmart m1 m2 url = some r → isGoodQuality (some r) = true) := by
  refine ⟨?_, ?_, ?_⟩
  · intro h1
    simp [extractBlogPostSmart, h1]
  · intro h1 h2
    simp [extractBlogPostSmart, h1, h2]
  · intro r hr
    unfold extractBlogPostSmart at hr
    by_cases h1 : isGoodQuality (m1 url)
    · rw [if_pos h1] at hr
      rw [hr] at h1
      exact h1
    · rw [if_neg h1] at hr
      by_cases h2 : isGoodQuality (m2 url)
      · rw [if_pos h2] at hr
        rw [hr] at h2
        exact h2
      · rw [if_neg h2] at hr
        exact absurd hr (Option.some_ne_none r).symm

/-- Witness for C3: with a 3-character title from method 1 and a failing
method 2, the pipeline is exactly method 2's gated outcome, i.e. no
record at all. -/
theorem extractBlogPostSmart_fallback_witness :
    extractBlogPostSmart method1C3 method2C3 "https://example.com/blog/post" =
      none ∧
    extractBlogPostSmart method1C3 method2C3 "https://example.com/blog/post" =
      (if isGoodQuality (method2C3 "https://example.com/blog/post") then
        method2C3 "https://example.com/blog/post" else none) :=
  ⟨(extractBlogPostSmart_fallback method1C3 method2C3
      "https://example.com/blog/post").2.1 (by decide) (by decide),
   (extractBlogPostSmart_fallback method1C3 method2C3
      "https://example.com/blog/post").1 (by decide)⟩

/-! ### Structural lemmas about `splitFirst` / `urlparse` -/

theorem splitFirst_append {d : Char} : ∀ {l a b : List Char},
    splitFirst d l = some (a, b) → l = a ++ d :: b
  | [], a, b, h => by simp [splitFirst] at h
  | c :: rest, a, b, h => by
    rw [splitFirst] at h
    by_cases hc : c == d
    · rw [if_pos hc] at h
      obtain ⟨rfl, rfl⟩ := Prod.mk.injEq .. ▸ Option.some.inj h
      simp [List.nil_append, (beq_iff_eq ..).mp hc]
    · rw [if_neg hc] at h
      match hr : splitFirst d rest with
      | none => rw [hr] at h; simp at h
      | some p =>
        rw [hr] at h
        simp only [Option.map] at h
        obtain ⟨ha, rfl⟩ := Prod.mk.injEq .. ▸ Option.some.inj h
        have := splitFirst_append hr
        subst ha
        simp [this]

theorem splitFirst_left_no {d : Char} : ∀ {l a b : List Char},
    splitFirst d l = some (a, b) → d ∉ a
  | [], a, b, h => by simp [splitFirst] at h
  | c :: rest, a, b, h => by
    rw [splitFirst] at h
    by_cases hc : c == d
    · rw [if_pos hc] at h
      obtain ⟨rfl, rfl⟩ := Prod.mk.injEq .. ▸ Option.some.inj h
      simp
    · rw [if_neg hc] at h
      match hr : splitFirst d rest with
      | none => rw [hr] at h; simp at h
      | some p =>
        rw [hr] at h
        simp only [Option.map] at h
        obtain ⟨ha, rfl⟩ := Prod.mk.injEq .. ▸ Option.some.inj h
        subst ha
        intro hm
        rcases List.mem_cons.mp hm with h1 | h2
        · exact hc (by simp [h1])
        · exact splitFirst_left_no hr h2

theorem splitFirst_none {d : Char} : ∀ {l : List Char}, splitFirst d l = none → d ∉ l
  | [], _ => by simp
  | c :: rest, h => by
    rw [splitFirst] at h
    by_cases hc : c == d
    · rw [if_pos hc] at h; simp at h
    · rw [if_neg hc] at h
      match hr : splitFirst d rest with
      | some p => rw [hr] at h; simp at h
      | none =>
        intro hm
        rcases List.mem_cons.mp hm with h1 | h2
        · exact hc (by simp [h1])
        · exact splitFirst_none hr h2

theorem fstSplit_no (d : Char) (l : List Char) : d ∉ fstSplit d l := by
  unfold fstSplit
  match hr : splitFirst d l with
  | none => exact splitFirst_none hr
  | some p => exact splitFirst_left_no (by rw [hr])

theorem fstSplit_subset (d : Char) (l : List Char) : ∀ x ∈ fstSplit d l, x ∈ l := by
  intro x hx
  unfold fstSplit at hx
  rcases hr : splitFirst d l with _ | p
  · rw [hr] at hx
    exact hx
  · rw [hr] at hx
    have hl2 := splitFirst_append (l := l) (a := p.1) (b := p.2) (by rw [hr])
    rw [hl2]
    exact List.mem_append.mpr (Or.inl hx)

theorem fstSplit_head (d : Char) (l : List Char) (hne : fstSplit d l ≠ []) :
    (fstSplit d l).head? = l.head? := by
  unfold fstSplit at hne ⊢
  rcases hr : splitFirst d l with _ | ⟨a, b⟩
  · rfl
  · rw [hr] at hne
    have hl2 := splitFirst_append (l := l) (a := a) (b := b) (by rw [hr])
    show a.head? = l.head?
    rcases a with _ | ⟨c, cs⟩
    · exfalso
      apply hne
      rfl
    · rw [hl2]
      rfl

theorem dropWhile_head_not {p : Char → Bool} : ∀ {l : List Char},
    l.dropWhile p = [] ∨ ∃ c cs, l.dropWhile p = c :: cs ∧ p c = false
  | [] => Or.inl rfl
  | c :: rest => by
    by_cases hc : p c
    · rw [List.dropWhile_cons_of_pos hc]
      exact dropWhile_head_not
    · rw [List.dropWhile_cons_of_neg hc]
      exact Or.inr ⟨c, rest, rfl, by simpa using hc⟩

/-- The remainder of a list after splitting at `#` and then `?` is
empty or keeps the original head. -/
theorem pathPiece_shape (r2 : List Char)
    (hsep : r2 = [] ∨ ∃ c cs, r2 = c :: cs ∧ netSep c = true) :
    fstSplit '?' (fstSplit '#' r2) = [] ∨
      listStarts "/".data (fstSplit '?' (fstSplit '#' r2)) = true := by
  rcases he : fstSplit '?' (fstSplit '#' r2) with _ | ⟨c, cs⟩
  · exact Or.inl rfl
  · right
    have hc1 : (fstSplit '?' (fstSplit '#' r2)).head? = r2.head? := by
      rw [fstSplit_head '?' _ (by rw [he]; simp)]
      refine fstSplit_head '#' r2 ?_
      intro hz
      rw [hz] at he
      simp [fstSplit, splitFirst] at he
    have hcm : c ∈ fstSplit '?' (fstSplit '#' r2) := by rw [he]; simp
    have hnq : c ≠ '?' := by
      intro hx
      have h5 := hcm
      rw [hx] at h5
      exact fstSplit_no '?' (fstSplit '#' r2) h5
    have hnf : c ≠ '#' := by
      intro hx
      have h5 := fstSplit_subset '?' _ c hcm
      rw [hx] at h5
      exact fstSplit_no '#' r2 h5
    rcases hsep with h1 | ⟨c2, cs2, h1, h2⟩
    · have := fstSplit_subset '#' r2 c (fstSplit_subset '?' _ c hcm)
      rw [h1] at this
      simp at this
    · have hceq : c = c2 := by
        rw [he, h1] at hc1
        simpa using hc1
      subst hceq
      simp only [netSep, Bool.or_eq_true, beq_iff_eq] at h2
      rcases h2 with (h3 | h3) | h3
      · simp [listStarts, h3]
      · exact absurd h3 hnq
      · exact absurd h3 hnf

/-- The path produced by a parse whose netloc is nonempty is empty or
starts with `/`. -/
theorem urlparse_path_shape {h : String} {u : UrlParts} (hp : urlparse h = some u)
    (hn : u.netloc ≠ "") :
    u.path = "" ∨ listStarts "/".data u.path.data = true := by
  unfold urlparse at hp
  by_cases hnet : listStarts "//".data (splitScheme h.data).2 = true
  · simp only [hnet, if_true] at hp
    by_cases hb : ((((splitScheme h.data).2.drop 2).takeWhile (fun c => !netSep c)).contains '[' !=
        (((splitScheme h.data).2.drop 2).takeWhile (fun c => !netSep c)).contains ']') = true
    · rw [if_pos hb] at hp
      exact absurd hp (by simp)
    · rw [if_neg hb] at hp
      have hu := (Option.some.inj hp).symm
      subst hu
      have hsep : (((splitScheme h.data).2.drop 2).dropWhile (fun c => !netSep c)) = [] ∨
          ∃ c cs, (((splitScheme h.data).2.drop 2).dropWhile (fun c => !netSep c)) = c :: cs ∧
            netSep c = true := by
        rcases (dropWhile_head_not (p := fun c => !netSep c)
            (l := (splitScheme h.data).2.drop 2)) with h1 | ⟨c2, cs2, h1, h2⟩
        · exact Or.inl h1
        · exact Or.inr ⟨c2, cs2, h1, by simpa using h2⟩
      rcases pathPiece_shape _ hsep with h1 | h1
      · left
        show String.mk _ = ""
        rw [h1]
      · right
        exact h1
  · simp only [Bool.not_eq_true] at hnet
    simp only [hnet, Bool.false_eq_true, if_false] at hp
    by_cases hb : (([] : List Char).contains '[' != ([] : List Char).contains ']') = true
    · rw [if_pos hb] at hp
      exact absurd hp (by simp)
    · rw [if_neg hb] at hp
      have hu := (Option.some.inj hp).symm
      subst hu
      exact absurd rfl hn

theorem splitScheme_head_nonalpha {l : List Char}
    (hh : ∀ c, l.head? = some c → c.isAlpha = false) : splitScheme l = ([], l) := by
  match l with
  | [] => rfl
  | c :: rest =>
    have hc := hh c rfl
    unfold splitScheme
    rw [splitFirst]
    by_cases hcd : c == ':'
    · rw [if_pos hcd]
    · rw [if_neg hcd]
      match hr : splitFirst ':' rest with
      | none => rfl
      | some p =>
        simp only [Option.map]
        simp [hc]

/-- A string that is empty or starts with `/`, `?` or `#`, and does not
start with `//`, parses with an empty netloc. -/
theorem urlparse_nohost {l : List Char}
    (hh : ∀ c, l.head? = some c → (c = '/' ∨ c = '?' ∨ c = '#'))
    (hnn : listStarts "//".data l = false) :
    ∃ u2, urlparse (String.mk l) = some u2 ∧ u2.netloc = "" := by
  have hsch : splitScheme l = ([], l) := by
    refine splitScheme_head_nonalpha fun c hc => ?_
    rcases hh c hc with h | h | h <;> subst h <;> rfl
  refine ⟨⟨⟨[]⟩, ⟨[]⟩, ⟨fstSplit '?' (fstSplit '#' l)⟩,
    ⟨sndSplit '?' (fstSplit '#' l)⟩, ⟨sndSplit '#' l⟩⟩, ?_, rfl⟩
  unfold urlparse
  simp only [String.mk, hsch, hnn]
  rfl

theorem listStarts_one {c : Char} {l : List Char} (h : listStarts [c] l = true) :
    ∃ tail, l = c :: tail := by
  match l with
  | [] => simp [listStarts] at h
  | x :: xs =>
    simp only [listStarts, Bool.and_eq_true, beq_iff_eq] at h
    exact ⟨xs, by rw [h.1]⟩

/-- The rewritten form of an internal link parses with no host component
provided the parsed path does not begin with `//`. -/
theorem relForm_no_netloc (u : UrlParts)
    (hshape : u.path = "" ∨ listStarts "/".data u.path.data = true)
    (hnn : listStarts "//".data u.path.data = false) :
    ∃ u2, urlparse (relForm u) = some u2 ∧ u2.netloc = "" := by
  have hdata : (relForm u).data =
      u.path.data ++ ((if u.query ≠ "" then "?" ++ u.query else "").data ++
        (if u.fragment ≠ "" then "#" ++ u.fragment else "").data) := by
    unfold relForm
    rw [String.data_append, String.data_append, List.append_assoc]
  -- the head of the query/fragment part is '?' or '#' (or the part is empty)
  have hqf : ∀ c, ((if u.query ≠ "" then "?" ++ u.query else "").data ++
      (if u.fragment ≠ "" then "#" ++ u.fragment else "").data).head? = some c →
      (c = '?' ∨ c = '#') := by
    intro c hc
    by_cases hq : u.query ≠ ""
    · rw [if_pos hq, String.data_append] at hc
      simp at hc
      exact Or.inl hc.symm
    · rw [if_neg hq] at hc
      simp only [String.data, List.nil_append] at hc
      by_cases hf : u.fragment ≠ ""
      · rw [if_pos hf, String.data_append] at hc
        simp at hc
        exact Or.inr hc.symm
      · rw [if_neg hf] at hc
        simp at hc
  have hrepl : ∃ u2, urlparse (String.mk (relForm u).data) = some u2 ∧ u2.netloc = "" := by
    rcases hshape with h1 | h1
    · -- empty path
      have hpd : u.path.data = [] := by rw [h1]
      refine urlparse_nohost ?_ ?_
      · intro c hc
        rw [hdata, hpd, List.nil_append] at hc
        rcases hqf c hc with h | h
        · exact Or.inr (Or.inl h)
        · exact Or.inr (Or.inr h)
      · rw [hdata, hpd, List.nil_append]
        rcases hx : ((if u.query ≠ "" then "?" ++ u.query else "").data ++
            (if u.fragment ≠ "" then "#" ++ u.fragment else "").data) with _ | ⟨c, cs⟩
        · rfl
        · have := hqf c (by rw [hx]; rfl)
          rcases this with h | h <;> subst h <;> simp [listStarts]
    · -- path starts with '/'
      obtain ⟨p2, hp2⟩ := listStarts_one h1
      have hne2 : listStarts "/".data p2 = false := by
        rw [hp2] at hnn
        simpa [listStarts] using hnn
      refine urlparse_nohost ?_ ?_
      · intro c hc
        rw [hdata, hp2] at hc
        simp only [List.cons_append, List.head?_cons, Option.some.injEq] at hc
        exact Or.inl hc.symm
      · rw [hdata, hp2]
        show (('/' == '/') && listStarts ['/'] (p2 ++ _)) = false
        simp only [beq_self_eq_true, Bool.true_and]
        rcases hp2e : p2 with _ | ⟨x, xs⟩
        · rw [List.nil_append]
          rcases hx : ((if u.query ≠ "" then "?" ++ u.query else "").data ++
              (if u.fragment ≠ "" then "#" ++ u.fragment else "").data) with _ | ⟨c, cs⟩
          · rfl
          · have := hqf c (by rw [hx]; rfl)
            rcases this with h | h <;> subst h <;> simp [listStarts]
        · have hx2 : ('/' == x) = false := by
            rw [hp2e] at hne2
            simpa [listStarts] using hne2
          simp [listStarts, hx2]
  obtain ⟨u2, h2, h3⟩ := hrepl
  exact ⟨u2, by rw [← h2], h3⟩

/-! ### `setAttr` and the frame property of link rewriting -/

theorem setAttr_setAttr (a : List (String × String)) (k v w : String) :
    setAttr (setAttr a k v) k w = setAttr a k w := by
  unfold setAttr
  rw [List.map_map]
  refine List.map_congr_left fun kv _ => ?_
  by_cases h : kv.1 = k
  · simp [Function.comp, h]
  · simp [Function.comp, h]

theorem lookup_setAttr_isSome (a : List (String × String)) (k v : String) :
    ((setAttr a k v).lookup k).isSome = (a.lookup k).isSome := by
  induction a with
  | nil => rfl
  | cons kv rest ih =>
    obtain ⟨k1, v1⟩ := kv
    by_cases h : k1 = k
    · subst h
      have he : (if (k1, v1).1 = k1 then (k1, v) else (k1, v1)) = (k1, v) := if_pos rfl
      simp only [setAttr, List.map_cons, he]
      simp [List.lookup, beq_self_eq_true]
    · have hb2 : (k == k1) = false := by simpa using (Ne.symm h)
      simp only [setAttr, List.map_cons, if_neg h]
      simp only [List.lookup, hb2]
      simpa [setAttr] using ih

mutual

theorem conv_frameN (sd : String) : (n : Node) →
    eraseHrefsN (convN sd n) = eraseHrefsN n
  | .elem t a c => by
    by_cases h1 : (t == "a" && (a.lookup "href").isSome) = true
    · cases hu : urlparse ((a.lookup "href").getD "") with
      | none =>
        simp only [convN, if_pos h1, hu]
        rw [eraseHrefsN, eraseHrefsN, if_pos h1, if_pos h1]
        rw [conv_frameL sd c]
      | some u =>
        by_cases h2 : strToLower u.netloc = sd
        · simp only [convN, if_pos h1, hu, if_pos h2]
          have h1b : (t == "a" && ((setAttr a "href" (relForm u)).lookup "href").isSome) = true := by
            rw [lookup_setAttr_isSome]
            exact h1
          rw [eraseHrefsN, eraseHrefsN, if_pos h1b, if_pos h1]
          rw [setAttr_setAttr, conv_frameL sd c]
        · simp only [convN, if_pos h1, hu, if_neg h2]
          rw [eraseHrefsN, eraseHrefsN, if_pos h1, if_pos h1]
          rw [conv_frameL sd c]
    · simp only [convN, if_neg h1]
      rw [eraseHrefsN, eraseHrefsN, if_neg h1, if_neg h1]
      rw [conv_frameL sd c]
  | .text s => rfl
  | .comment s => rfl

theorem conv_frameL (sd : String) : (l : List Node) →
    eraseHrefsL (convL sd l) = eraseHrefsL l
  | [] => rfl
  | n :: rest => by
    rw [convL, eraseHrefsL, eraseHrefsL, conv_frameN sd n, conv_frameL sd rest]

end

/-! ## Claims C6 and C7 -/

/-- C6: the classifier partitions each non-empty, non-fragment href into
exactly one class — no host component means relative, a host equal to
the source host (case-insensitively) means internal together with the
path+query+fragment rewritten form, any other host means external with
that host recorded, and an href whose parse raises is classified
relative; `processAnchor` (the loop body of
`extract_hyperlinks_from_content`) appends each eligible anchor to
exactly the bucket of its class. -/
theorem extractHyperlinks_partition (sd href : String) (u : UrlParts) (b : LinkBuckets)
    (n : Node) :
    (urlparse href = none → classifyHref sd href = .relative) ∧
    (urlparse href = some u → u.netloc = "" → classifyHref sd href = .relative) ∧
    (urlparse href = some u → u.netloc ≠ "" → strToLower u.netloc = sd →
      classifyHref sd href = .internal (relForm u)) ∧
    (urlparse href = some u → u.netloc ≠ "" → strToLower u.netloc ≠ sd →
      classifyHref sd href = .external (strToLower u.netloc)) ∧
    (trimStr (hrefOf n) ≠ "" → strStarts "#" (trimStr (hrefOf n)) = false →
      processAnchor sd b n =
        (match classifyHref sd (trimStr (hrefOf n)) with
         | .relative => { b with relative_links := b.relative_links ++
             [⟨trimStr (hrefOf n), textStripN n, renderNode n⟩] }
         | .internal r => { b with internal_links := b.internal_links ++
             [⟨trimStr (hrefOf n), textStripN n, renderNode n, r, trimStr (hrefOf n)⟩] }
         | .external d => { b with external_links := b.external_links ++
             [⟨trimStr (hrefOf n), textStripN n, renderNode n, d⟩] })) := by
  refine ⟨?_, ?_, ?_, ?_, ?_⟩
  · intro h
    simp [classifyHref, h]
  · intro h h2
    simp [classifyHref, h, h2]
  · intro h h2 h3
    simp [classifyHref, h, h2, h3]
  · intro h h2 h3
    simp [classifyHref, h, h2, h3]
  · intro h1 h2
    unfold processAnchor classifyHref
    rw [if_neg (by simp [h1, h2])]
    cases hu : urlparse (trimStr (hrefOf n)) with
    | none => rfl
    | some u2 =>
      by_cases he : u2.netloc = ""
      · simp [he]
      · by_cases hi : strToLower u2.netloc = sd
        · simp [he, hi]
        · simp [he, hi]

/-- Witness for C6 at concrete hrefs: a malformed href (mismatched
bracket) is relative, an empty-host href is relative, a same-host href
(case-insensitively) is internal with the path+query+fragment form, a
foreign host is external, and the loop body files an anchor into the
bucket of its class. -/
theorem extractHyperlinks_partition_witness :
    classifyHref "example.com" "http://[malformed" = .relative ∧
    classifyHref "example.com" "/inventory/new" = .relative ∧
    classifyHref "example.com" "HTTPS://EXAMPLE.COM/specials/ford?sort=price#top" =
      .internal "/specials/ford?sort=price#top" ∧
    classifyHref "example.com" "https://maps.google.com/directions" =
      .external "maps.google.com" ∧
    processAnchor "example.com" ⟨[], [], []⟩ anchorC6 =
      ⟨[⟨"HTTPS://EXAMPLE.COM/specials/ford?sort=price#top", "our specials",
         renderNode anchorC6, "/specials/ford?sort=price#top",
         "HTTPS://EXAMPLE.COM/specials/ford?sort=price#top"⟩], [], []⟩ := by
  refine ⟨?_, ?_, ?_, ?_, ?_⟩
  · exact (extractHyperlinks_partition "example.com" "http://[malformed"
      ⟨"", "", "", "", ""⟩ ⟨[], [], []⟩ anchorC6).1 (by rfl)
  · exact (extractHyperlinks_partition "example.com" "/inventory/new"
      ⟨"", "", "/inventory/new", "", ""⟩ ⟨[], [], []⟩ anchorC6).2.1 (by rfl) (by rfl)
  · exact (extractHyperlinks_partition "example.com"
      "HTTPS://EXAMPLE.COM/specials/ford?sort=price#top"
      ⟨"https", "EXAMPLE.COM", "/specials/ford", "sort=price", "top"⟩
      ⟨[], [], []⟩ anchorC6).2.2.1 (by rfl) (by decide) (by rfl)
  · exact (extractHyperlinks_partition "example.com" "https://maps.google.com/directions"
      ⟨"https", "maps.google.com", "/directions", "", ""⟩
      ⟨[], [], []⟩ anchorC6).2.2.2.1 (by rfl) (by decide) (by decide)
  · have h5 := (extractHyperlinks_partition "example.com"
      "HTTPS://EXAMPLE.COM/specials/ford?sort=price#top"
      ⟨"", "", "", "", ""⟩ ⟨[], [], []⟩ anchorC6).2.2.2.2 (by decide) (by decide)
    rw [h5]
    rfl

/-- C7 counterexample: rewriting the internal anchor
`https://example.com//foo/bar` (source `https://example.com/blog/page`)
yields href `//foo/bar` — but that scheme-relative form re-parses with
host `foo`, so the rewritten href of an internal anchor can still have a
host component, contradicting the claim. -/
theorem convertInternalLinks_keeps_host_counterexample :
    convertInternalLinksToRelative [anchorC7] "https://example.com/blog/page" =
      some [Node.elem "a" [("href", "//foo/bar")] [Node.text "promo"]] ∧
    (urlparse "//foo/bar").map UrlParts.netloc = some "foo" ∧
    some "foo" ≠ some ("" : String) := by
  refine ⟨rfl, rfl, by decide⟩

/-- C7 (amended): link rewriting changes nothing but anchor href values
(frame property); on an anchor its href becomes `rewriteHref`, which
leaves relative and external hrefs unchanged and replaces an internal
href by the path+query+fragment form; the rewritten internal href
re-parses without a host component provided the original path does not
begin with `//` (the counterexample shows that proviso is necessary). -/
theorem convertInternalLinks_frame_and_rewrite (sd h : String) (l : List Node)
    (c : List Node) (u : UrlParts) :
    (eraseHrefsL (convL sd l) = eraseHrefsL l) ∧
    (convN sd (Node.elem "a" [("href", h)] c) =
      Node.elem "a" [("href", rewriteHref sd h)] (convL sd c)) ∧
    (sd ≠ "" → classifyHref sd h = .relative → rewriteHref sd h = h) ∧
    (∀ d, classifyHref sd h = .external d → rewriteHref sd h = h) ∧
    (urlparse h = some u → strToLower u.netloc = sd → rewriteHref sd h = relForm u) ∧
    (urlparse h = some u → strToLower u.netloc = sd → sd ≠ "" →
      listStarts "//".data u.path.data = false →
      ∃ u2, urlparse (rewriteHref sd h) = some u2 ∧ u2.netloc = "") := by
  have hlk : List.lookup "href" [("href", h)] = some h := rfl
  refine ⟨conv_frameL sd l, ?_, ?_, ?_, ?_, ?_⟩
  · cases hu : urlparse h with
    | none => simp [convN, hlk, hu, rewriteHref]
    | some u2 =>
      by_cases h2 : strToLower u2.netloc = sd
      · simp [convN, hlk, hu, h2, rewriteHref, setAttr]
      · simp [convN, hlk, hu, h2, rewriteHref]
  · intro hsd hcl
    cases hu : urlparse h with
    | none => simp [rewriteHref, hu]
    | some u2 =>
      simp only [classifyHref, hu] at hcl
      simp only [rewriteHref, hu]
      by_cases he : u2.netloc = ""
      · rw [if_neg ?_]
        intro hz
        rw [he] at hz
        exact hsd ((show strToLower "" = "" from rfl) ▸ hz).symm
      · rw [if_neg he] at hcl
        by_cases hi : strToLower u2.netloc = sd
        · rw [if_pos hi] at hcl
          exact absurd hcl (by simp)
        · rw [if_neg hi] at hcl
          exact absurd hcl (by simp)
  · intro d hcl
    cases hu : urlparse h with
    | none => simp [rewriteHref, hu]
    | some u2 =>
      simp only [classifyHref, hu] at hcl
      simp only [rewriteHref, hu]
      by_cases he : u2.netloc = ""
      · rw [if_pos he] at hcl
        exact absurd hcl (by simp)
      · rw [if_neg he] at hcl
        by_cases hi : strToLower u2.netloc = sd
        · rw [if_pos hi] at hcl
          exact absurd hcl (by simp)
        · rw [if_neg hi] at hcl
          rw [if_neg hi]
  · intro hu h2
    simp [rewriteHref, hu, h2]
  · intro hu h2 hsd hnn
    have hne : u.netloc ≠ "" := by
      intro hz
      apply hsd
      rw [← h2, hz]
      rfl
    have hshape := urlparse_path_shape hu hne
    have hr := relForm_no_netloc u hshape hnn
    have heq : rewriteHref sd h = relForm u := by simp [rewriteHref, hu, h2]
    rw [heq]
    exact hr

/-- Witness for C7 at concrete anchors: the frame equation on a sample
list, the rewrite equation, the relative/external no-ops, and an
internal href rewritten to a hostless form. -/
theorem convertInternalLinks_frame_and_rewrite_witness :
    (eraseHrefsL (convL "example.com" [anchorC6]) = eraseHrefsL [anchorC6]) ∧
    rewriteHref "example.com" "/contact" = "/contact" ∧
    rewriteHref "example.com" "https://maps.google.com/directions" =
      "https://maps.google.com/directions" ∧
    rewriteHref "example.com" "https://example.com/new/ford?sort=price#top" =
      "/new/ford?sort=price#top" ∧
    (∃ u2, urlparse (rewriteHref "example.com" "https://example.com/new/ford?sort=price#top") =
      some u2 ∧ u2.netloc = "") := by
  refine ⟨?_, ?_, ?_, ?_, ?_⟩
  · exact (convertInternalLinks_frame_and_rewrite "example.com" "" [anchorC6] []
      ⟨"", "", "", "", ""⟩).1
  · exact (convertInternalLinks_frame_and_rewrite "example.com" "/contact" [] []
      ⟨"", "", "", "", ""⟩).2.2.1 (by decide) (by rfl)
  · exact (convertInternalLinks_frame_and_rewrite "example.com"
      "https://maps.google.com/directions" [] []
      ⟨"", "", "", "", ""⟩).2.2.2.1 "maps.google.com" (by rfl)
  · exact (convertInternalLinks_frame_and_rewrite "example.com"
      "https://example.com/new/ford?sort=price#top" [] []
      ⟨"https", "example.com", "/new/ford", "sort=price", "top"⟩).2.2.2.2.1
      (by rfl) (by rfl)
  · exact (convertInternalLinks_frame_and_rewrite "example.com"
      "https://example.com/new/ford?sort=price#top" [] []
      ⟨"https", "example.com", "/new/ford", "sort=price", "top"⟩).2.2.2.2.2
      (by rfl) (by rfl) (by decide) (by decide)

theorem replaceAll_single (c : Char) (repl : List Char) :
    ∀ (fuel : Nat) (l : List Char), l.length ≤ fuel →
      replaceAllFuel [c] repl fuel l = l.flatMap (sub1 c repl)
  | fuel, [], _ => by simp [replaceAllFuel]
  | 0, x :: rest, h => by simp at h
  | fuel + 1, x :: rest, h => by
    rw [replaceAllFuel]
    by_cases hc : x = c
    · rw [if_pos ?side]
      case side =>
        subst hc
        simp [listStarts]
      have hd : (x :: rest).drop ([c].length) = rest := by simp
      rw [hd, replaceAll_single c repl fuel rest (by simpa using h)]
      subst hc
      simp [sub1]
    · rw [if_neg ?side2]
      case side2 =>
        have : (c == x) = false := by simpa using (Ne.symm hc)
        simp [listStarts, this]
      rw [replaceAll_single c repl fuel rest (by simpa using Nat.le_of_succ_le_succ h)]
      simp [sub1, hc]

theorem strReplace_single (p r s : String) (c : Char) (hp : p.data = [c]) :
    (strReplace p r s).data = s.data.flatMap (sub1 c r.data) := by
  show replaceAllFuel p.data r.data s.data.length s.data = _
  rw [hp]
  exact replaceAll_single c r.data s.data.length s.data (le_refl _)

theorem escCompose (x : Char) :
    ((sub1 '&' "&amp;".data x).flatMap fun y =>
      (sub1 '<' "&lt;".data y).flatMap fun z =>
        (sub1 '>' "&gt;".data z).flatMap fun w =>
          (sub1 '"' "&quot;".data w).flatMap (sub1 '\'' "&#39;".data)) = escXmlChar x := by
  by_cases h1 : x = '&'
  · subst h1; decide
  · by_cases h2 : x = '<'
    · subst h2; decide
    · by_cases h3 : x = '>'
      · subst h3; decide
      · by_cases h4 : x = '"'
        · subst h4; decide
        · by_cases h5 : x = '\''
          · subst h5; decide
          · have b1 : (x == '&') = false := by simpa using h1
            have b2 : (x == '<') = false := by simpa using h2
            have b3 : (x == '>') = false := by simpa using h3
            have b4 : (x == '"') = false := by simpa using h4
            have b5 : (x == '\'') = false := by simpa using h5
            simp [sub1, escXmlChar, b1, b2, b3, b4, b5, h1, h2, h3, h4, h5,
              List.flatMap_cons, List.flatMap_nil]

theorem escapeXmlText_data (s : String) :
    (escapeXmlText s).data = s.data.flatMap escXmlChar := by
  unfold escapeXmlText
  rw [strReplace_single _ _ _ '\'' rfl, strReplace_single _ _ _ '"' rfl,
    strReplace_single _ _ _ '>' rfl, strReplace_single _ _ _ '<' rfl,
    strReplace_single _ _ _ '&' rfl]
  rw [List.flatMap_assoc, List.flatMap_assoc, List.flatMap_assoc, List.flatMap_assoc]
  exact List.flatMap_congr fun x _ => escCompose x

theorem unescXml_cons_of_ne (c : Char) (l : List Char) (h : c ≠ '&') :
    unescXml (c :: l) = c :: unescXml l := by
  rw [unescXml]
  all_goals intros
  all_goals apply h
  all_goals assumption

theorem unesc_esc : ∀ l : List Char, unescXml (l.flatMap escXmlChar) = l
  | [] => rfl
  | x :: rest => by
    have hcons : (x :: rest).flatMap escXmlChar =
        escXmlChar x ++ rest.flatMap escXmlChar := rfl
    rw [hcons]
    by_cases h1 : x = '&'
    · subst h1
      show unescXml ('&' :: 'a' :: 'm' :: 'p' :: ';' :: rest.flatMap escXmlChar) = _
      rw [unescXml]
      rw [unesc_esc rest]
    · by_cases h2 : x = '<'
      · subst h2
        show unescXml ('&' :: 'l' :: 't' :: ';' :: rest.flatMap escXmlChar) = _
        rw [unescXml]
        rw [unesc_esc rest]
      · by_cases h3 : x = '>'
        · subst h3
          show unescXml ('&' :: 'g' :: 't' :: ';' :: rest.flatMap escXmlChar) = _
          rw [unescXml]
          rw [unesc_esc rest]
        · by_cases h4 : x = '"'
          · subst h4
            show unescXml ('&' :: 'q' :: 'u' :: 'o' :: 't' :: ';' :: rest.flatMap escXmlChar) = _
            rw [unescXml]
            rw [unesc_esc rest]
          · by_cases h5 : x = '\''
            · subst h5
              show unescXml ('&' :: '#' :: '3' :: '9' :: ';' :: rest.flatMap escXmlChar) = _
              rw [unescXml]
              rw [unesc_esc rest]
            · have b1 : (x == '&') = false := by simpa using h1
              have b2 : (x == '<') = false := by simpa using h2
              have b3 : (x == '>') = false := by simpa using h3
              have b4 : (x == '"') = false := by simpa using h4
              have b5 : (x == '\'') = false := by simpa using h5
              have he : escXmlChar x = [x] := by simp [escXmlChar, b1, b2, b3, b4, b5]
              rw [he]
              show unescXml (x :: rest.flatMap escXmlChar) = _
              rw [unescXml_cons_of_ne x _ h1, unesc_esc rest]

/-! ### Lemmas about the CDATA guard -/

theorem guardCdata_cons_of_ne (c : Char) (rest : List Char)
    (h : ∀ r1 : List Char, c = ']' → rest = ']' :: '>' :: r1 → False) :
    guardCdata (c :: rest) = c :: guardCdata rest := by
  rw [guardCdata]
  exact h

theorem take1_guardCdata (l : List Char) : (guardCdata l).take 1 = l.take 1 := by
  induction l using guardCdata.induct with
  | case1 rest ih => simp [guardCdata]
  | case2 c rest h ih => rw [guardCdata_cons_of_ne c rest h]; simp
  | case3 => simp [guardCdata]

theorem take2_guardCdata (l : List Char) :
    ((guardCdata l).take 2 = [']', '>']) = (l.take 2 = [']', '>']) := by
  induction l using guardCdata.induct with
  | case1 rest ih => simp [guardCdata]
  | case2 c rest h ih =>
    rw [guardCdata_cons_of_ne c rest h]
    simp [List.take_cons, take1_guardCdata]
  | case3 => simp [guardCdata]

theorem hasCdataEnd_guardCdata (l : List Char) :
    hasCdataEnd (guardCdata l) = false := by
  induction l using guardCdata.induct with
  | case1 rest ih => simpa [guardCdata, hasCdataEnd] using ih
  | case2 c rest h ih =>
    rw [guardCdata_cons_of_ne c rest h]
    rw [hasCdataEnd]
    simp [ih, List.take_cons, take2_guardCdata]
    intro hc h2
    subst hc
    rcases rest with _ | ⟨a, _ | ⟨b, r⟩⟩ <;> simp_all
  | case3 => simp [guardCdata, hasCdataEnd]

theorem guardCdata_mem : ∀ (l : List Char) (x : Char), x ∈ guardCdata l → x ∈ l ∨ x = ' ' := by
  intro l
  induction l using guardCdata.induct with
  | case1 rest ih =>
    intro x hx
    rw [guardCdata] at hx
    simp only [List.mem_cons] at hx
    rcases hx with h2 | h2 | h2 | h2 | hx
    · left
      simp [h2]
    · left
      simp [h2]
    · exact Or.inr h2
    · left
      simp [h2]
    · rcases ih x hx with h2 | h2
      · left
        simp [h2]
      · exact Or.inr h2
  | case2 c rest h ih =>
    intro x hx
    rw [guardCdata_cons_of_ne c rest h] at hx
    rcases List.mem_cons.mp hx with h2 | h2
    · left
      simp [h2]
    · rcases ih x h2 with h3 | h3
      · left
        simp [h3]
      · exact Or.inr h3
  | case3 =>
    intro x hx
    simp [guardCdata] at hx

theorem guardCdata_id_of_no_end : ∀ l : List Char, hasCdataEnd l = false → guardCdata l = l := by
  intro l
  induction l using guardCdata.induct with
  | case1 rest ih =>
    intro hf
    rw [hasCdataEnd] at hf
    simp at hf
  | case2 c rest h ih =>
    intro hf
    rw [hasCdataEnd] at hf
    simp only [Bool.or_eq_false_iff] at hf
    rw [guardCdata_cons_of_ne c rest h, ih hf.2]
  | case3 => intro _; rfl

/-! ## Claims C4, C5, C10 -/

/-- C5: the body emitted inside the `content:encoded` CDATA block by the
fixed serializer contains only characters in the allowed XML 1.0 set and
no occurrence of the literal sequence `]]>` — each occurrence is
replaced by `]] >` with a space inserted, as the concrete instance
shows. -/
theorem cleanContentForCdata_valid_and_guarded (s : String) :
    ((cleanContentForCdata s).data.all validXmlChar = true) ∧
    (hasCdataEnd (cleanContentForCdata s).data = false) ∧
    cleanContentForCdata "x]]>y" = "x]] >y" := by
  refine ⟨?_, hasCdataEnd_guardCdata _, by decide⟩
  rw [List.all_eq_true]
  intro x hx
  rcases guardCdata_mem _ x hx with h1 | h1
  · exact (List.mem_filter.mp h1).2
  · subst h1
    decide

/-- C4 (the part the fixed serializer gets right): every field of the
item is emitted with `escape_xml_text` applied exactly once — decoding
the five entities recovers the original title — and the body goes into
the CDATA block verbatim (no escaping; only the invalid-character strip
and the `]]>` guard, which are the identity on already-clean content).
The modern serializer (`generate_wordpress_xml`) violates the claim: its
CDATA payload for the content `<p>hi</p>` is the entity-escaped
`&lt;p&gt;hi&lt;/p&gt;`, not the verbatim body. -/
theorem fixed_escapes_once_but_modern_escapes_body (h : String → Int) (p : PostRec) :
    ("<title>" ++ escapeXmlText p.title ++ "</title>") ∈ generateItemPartsFixed h p ∧
    ("<link>" ++ escapeXmlText p.url ++ "</link>") ∈ generateItemPartsFixed h p ∧
    ("<dc:creator>" ++ escapeXmlText p.author ++ "</dc:creator>")
      ∈ generateItemPartsFixed h p ∧
    ("<wp:post_name>" ++ escapeXmlText p.slug ++ "</wp:post_name>")
      ∈ generateItemPartsFixed h p ∧
    ("<content:encoded><![CDATA[" ++ cleanContentForCdata p.content ++
      "]]></content:encoded>") ∈ generateItemPartsFixed h p ∧
    unescXml ((escapeXmlText p.title).data) = p.title.data ∧
    (p.content.data.all validXmlChar = true → hasCdataEnd p.content.data = false →
      cleanContentForCdata p.content = p.content) ∧
    cdataPayloadModern [Node.elem "p" [] [Node.text "hi"]] = "&lt;p&gt;hi&lt;/p&gt;" ∧
    cdataPayloadModern [Node.elem "p" [] [Node.text "hi"]] ≠ "<p>hi</p>" := by
  refine ⟨?_, ?_, ?_, ?_, ?_, ?_, ?_, by decide, by decide⟩
  · simp only [generateItemPartsFixed]
    cases p.date <;> simp
  · simp only [generateItemPartsFixed]
    cases p.date <;> simp
  · simp only [generateItemPartsFixed]
    cases p.date <;> simp
  · simp only [generateItemPartsFixed]
    cases p.date <;> simp
  · simp only [generateItemPartsFixed]
    cases p.date <;> simp
  · rw [escapeXmlText_data]
    exact unesc_esc _
  · intro hv hn
    show String.mk (guardCdata (p.content.data.filter validXmlChar)) = p.content
    rw [List.filter_eq_self.mpr (fun a ha => (List.all_eq_true.mp hv) a ha)]
    rw [guardCdata_id_of_no_end _ hn]

/-- Witness for C4 at a concrete post: the once-escaped title line is in
the emitted item, decoding recovers the raw title, and the clean body
passes into the CDATA block verbatim. -/
theorem fixed_escapes_once_but_modern_escapes_body_witness :
    ("<title>" ++ escapeXmlText postC4.title ++ "</title>")
      ∈ generateItemPartsFixed (pythonHashModel 0) postC4 ∧
    unescXml ((escapeXmlText postC4.title).data) = postC4.title.data ∧
    cleanContentForCdata postC4.content = postC4.content :=
  ⟨(fixed_escapes_once_but_modern_escapes_body (pythonHashModel 0) postC4).1,
   (fixed_escapes_once_but_modern_escapes_body (pythonHashModel 0) postC4).2.2.2.2.2.1,
   (fixed_escapes_once_but_modern_escapes_body (pythonHashModel 0) postC4).2.2.2.2.2.2.1
     (by decide) (by decide)⟩

/-- C10: with Python's per-process seeded string hash modelled as a
seed-indexed family, the emitted `wp:post_id` for the same URL differs
between two seeds (two process runs), so it is not a function of the
source URL alone; within one run it is a well-formed number below
1000000. -/
theorem postId_seed_dependent :
    postIdOf (pythonHashModel 0) "http://test.com/post" ≠
      postIdOf (pythonHashModel 1) "http://test.com/post" ∧
    (∀ (h : String → Int) (url : String),
      0 ≤ postIdOf h url ∧ postIdOf h url < 1000000) := by
  constructor
  · decide
  · intro h url
    exact ⟨Int.emod_nonneg _ (by decide), Int.emod_lt_of_pos _ (by decide)⟩

/-! ### Idempotence machinery for `clean_html_content` (claim C8) -/

theorem allowedOfSmart_idem (t : String) (a : List (String × String)) :
    allowedOfSmart t (allowedOfSmart t a) = allowedOfSmart t a := by
  by_cases h1 : (t == "a") = true
  · cases hv : a.lookup "href" with
    | some v =>
      simp only [allowedOfSmart, h1, if_true, hv]
      have e1 : List.lookup "href" [("href", v)] = some v := by
        simp [List.lookup]
      simp [e1]
    | none => simp [allowedOfSmart, h1, hv, List.lookup]
  · by_cases h2 : (t == "img") = true
    · cases hv : a.lookup "src" with
      | some v =>
        cases hw : a.lookup "alt" with
        | some w =>
          simp only [allowedOfSmart, h1, h2, if_true, if_false, Bool.false_eq_true, hv, hw]
          have e1 : List.lookup "src" [("src", v), ("alt", w)] = some v := by
            simp [List.lookup]
          have e2 : List.lookup "alt" [("src", v), ("alt", w)] = some w := by
            have hb : ("alt" == "src") = false := by decide
            simp [List.lookup, hb]
          simp [e1, e2]
        | none =>
          simp only [allowedOfSmart, h1, h2, if_true, if_false, Bool.false_eq_true, hv, hw]
          have e1 : List.lookup "src" [("src", v)] = some v := by
            simp [List.lookup]
          have e2 : List.lookup "alt" [("src", v)] = none := by
            have hb : ("alt" == "src") = false := by decide
            simp [List.lookup, hb]
          simp [e1, e2]
      | none => simp [allowedOfSmart, h1, h2, hv, List.lookup]
    · simp [allowedOfSmart, h1, h2, List.lookup]

mutual

theorem stripSmart_idemN : (n : Node) →
    stripAttrsSmartN (stripAttrsSmartN n) = stripAttrsSmartN n
  | .elem t a c => by
    rw [stripAttrsSmartN, stripAttrsSmartN, allowedOfSmart_idem, stripSmart_idemL c]
  | .text s => rfl
  | .comment s => rfl

theorem stripSmart_idemL : (l : List Node) →
    stripAttrsSmartL (stripAttrsSmartL l) = stripAttrsSmartL l
  | [] => rfl
  | n :: rest => by
    rw [stripAttrsSmartL, stripAttrsSmartL, stripSmart_idemN n, stripSmart_idemL rest]

end

mutual

theorem strip_noBadN : (n : Node) → noBadN n = true →
    noBadN (stripAttrsSmartN n) = true
  | .elem t a c, h => by
    rw [noBadN, Bool.and_eq_true] at h
    rw [stripAttrsSmartN, noBadN]
    simp [h.1, strip_noBadL c h.2]
  | .text _, _ => rfl
  | .comment _, _ => rfl

theorem strip_noBadL : (l : List Node) → noBadL l = true →
    noBadL (stripAttrsSmartL l) = true
  | [], _ => rfl
  | n :: rest, h => by
    rw [noBadL, Bool.and_eq_true] at h
    rw [stripAttrsSmartL, noBadL]
    simp [strip_noBadN n h.1, strip_noBadL rest h.2]

end

theorem tagIn_eq_false_of_noBad (n : Node) (h : noBadN n = true) :
    tagIn smartBadTags n = false := by
  cases n with
  | elem t a c =>
    rw [noBadN, Bool.and_eq_true] at h
    simpa [tagIn] using (by simpa using h.1 : ¬ t ∈ smartBadTags)
  | text s => rfl
  | comment s => rfl

mutual

theorem removeBad_id_N : (n : Node) → noBadN n = true →
    removeBadN smartBadTags n = n
  | .elem t a c, h => by
    rw [noBadN, Bool.and_eq_true] at h
    rw [removeBadN, removeBad_id_L c h.2]
  | .text _, _ => rfl
  | .comment _, _ => rfl

theorem removeBad_id_L : (l : List Node) → noBadL l = true →
    removeBadL smartBadTags l = l
  | [], _ => rfl
  | n :: rest, h => by
    rw [noBadL, Bool.and_eq_true] at h
    rw [removeBadL, tagIn_eq_false_of_noBad n h.1]
    simp [removeBad_id_N n h.1, removeBad_id_L rest h.2]

end

/-! ## Claim C8 -/

/-- C8 (amended): re-running `clean_html_content` on its own output
changes nothing. -/
theorem cleanHtmlContent_idempotent (n : Node) :
    cleanHtmlContent (cleanHtmlContent n) = cleanHtmlContent n := by
  cases n with
  | elem t a c =>
    show Node.elem t a (stripAttrsSmartL (removeBadL smartBadTags
        (stripAttrsSmartL (removeBadL smartBadTags c)))) =
      Node.elem t a (stripAttrsSmartL (removeBadL smartBadTags c))
    have h1 : noBadL (stripAttrsSmartL (removeBadL smartBadTags c)) = true :=
      strip_noBadL _ (removeBad_noBadL c)
    rw [removeBad_id_L _ h1, stripSmart_idemL]
  | text s => rfl
  | comment s => rfl

/-- C8 counterexample: the modern extractor's normalisation is not
idempotent even on a single clean paragraph — the second run unwraps
the paragraph that the first run emitted and re-wraps its contents,
whitespace text nodes included, so the output changes. -/
theorem modernCleanContent_not_idempotent :
    modernCleanContent regionC8 =
      "<div class='post-content'>\n<p>Hello world</p>\n</div>" ∧
    modernCleanContent reparsedC8 =
      "<div class='post-content'>\n<p>\nHello world\n</p>\n</div>" ∧
    ("<div class='post-content'>\n<p>Hello world</p>\n</div>" : String) ≠
      "<div class='post-content'>\n<p>\nHello world\n</p>\n</div>" :=
  ⟨by decide, by decide, by decide⟩

/-! ## Claim C9 -/

theorem replaceAll_id_of_not_contains (pat repl : List Char) :
    ∀ (fuel : Nat) (l : List Char), containsSub pat l = false →
      replaceAllFuel pat repl fuel l = l
  | fuel, [], _ => by simp [replaceAllFuel]
  | 0, c :: rest, _ => rfl
  | fuel + 1, c :: rest, h => by
    rw [containsSub] at h
    simp only [Bool.or_eq_false_iff] at h
    rw [replaceAllFuel, if_neg ?side]
    case side => simp [h.1]
    rw [replaceAll_id_of_not_contains pat repl fuel rest h.2]

/-- C9 counterexample: preview reports two matches; applying a
selection containing only the first one still rewrites both anchors,
because `apply_replace` performs `content.replace(old_href, new_href)`
over the whole content string — the unselected second anchor is not
left byte-identical. -/
theorem applySelected_not_frame :
    previewFindMatches "/old-path" "/new-path" anchorsC9 =
      [("<a href=\"/old-path/item\">x</a>", "/old-path/item", "/new-path/item"),
       ("<a href=\"/old-path/item\">y</a>", "/old-path/item", "/new-path/item")] ∧
    applySelected [("/old-path/item", "/new-path/item")] (renderList anchorsC9) =
      "<a href=\"/new-path/item\">x</a><a href=\"/new-path/item\">y</a>" ∧
    ("<a href=\"/new-path/item\">x</a><a href=\"/new-path/item\">y</a>" : String) ≠
      "<a href=\"/new-path/item\">x</a><a href=\"/old-path/item\">y</a>" :=
  ⟨by decide, by decide, by decide⟩

/-- C9 (amended): applying a selected match performs a global substring
replacement of its old href by its new href over the whole content
string — content not containing the old href is unchanged — and on the
claim's single-anchor scenario the preview reports exactly one match
and applying it yields the expected anchor. -/
theorem applySelected_global_and_scenario (o n s : String) :
    (containsSub o.data s.data = false → applySelected [(o, n)] s = s) ∧
    previewFindMatches "/old-path" "/new-path"
        [Node.elem "a" [("href", "/old-path/item")] [Node.text "x"]] =
      [("<a href=\"/old-path/item\">x</a>", "/old-path/item", "/new-path/item")] ∧
    applySelected [("/old-path/item", "/new-path/item")]
        (renderList [Node.elem "a" [("href", "/old-path/item")] [Node.text "x"]]) =
      "<a href=\"/new-path/item\">x</a>" := by
  refine ⟨?_, by decide, by decide⟩
  intro h
  show String.mk (replaceAllFuel o.data n.data s.data.length s.data) = s
  rw [replaceAll_id_of_not_contains o.data n.data s.data.length s.data h]

/-- Witness for C9's amended claim: content without the selected href
is byte-identical after apply. -/
theorem applySelected_global_and_scenario_witness :
    applySelected [("/old-path/item", "/new-path/item")] "<p>No links here at all</p>" =
      "<p>No links here at all</p>" :=
  (applySelected_global_and_scenario "/old-path/item" "/new-path/item"
    "<p>No links here at all</p>").1 (by decide)

end WpMig

